import Mathlib

/-!
A shallow embedding of zeninjector's dependency-injection container
(`src/lib/container.js`): the module registry, the registration rules
(including the full-mock and partial-mock override policies), the
asynchronous `resolve` algorithm with its memoization, cycle rejection and
partial-mock overlay, and the error messages those operations produce.

JavaScript's single-threaded promise scheduling is embedded as a
deterministic state-passing interpreter: `resolve` becomes a fuel-indexed
recursive function threading the container, and every `.then` continuation
runs at the point its promise would settle.  Machine values are modelled by
`Value` (objects carry primitive-valued enumerable properties, which is all
the container ever inspects: `performPartialMock` copies property values
opaquely).  Fallible operations return `Except String`, the error string
being the JavaScript `Error` message.

Two collaborators of `container.js` are not in the repository's source
tree (`cycleDetection.js` and `extractDep.js`); they are modelled from the
specification's words, and each such definition says so in its doc comment.
-/

namespace Zeninjector

/-- A primitive JavaScript value as stored in an object property. -/
inductive Prim where
  | pnull
  | pundefined
  | pstr (s : String)
  | pint (n : Int)
deriving Repr, DecidableEq

/-- A JavaScript value as the container observes it: `null`, `undefined`,
a string, an integer, or an object with enumerable properties (in insertion
order, as JavaScript enumerates string keys). -/
inductive Value where
  | vnull
  | vundefined
  | vstr (s : String)
  | vint (n : Int)
  | vobj (fields : List (String × Prim))
deriving Repr, DecidableEq

/-- A module's `define` function: receives the resolved dependency values and
either returns a value or throws (models both a synchronous throw and a
returned awaitable that rejects; `resolve` treats the two alike). -/
abbrev DefineFn := List Value → Except String Value

/-- The three lifecycle states of a `Module` (comment block above the
`Module` constructor in container.js). -/
inductive ModuleState where
  | registered
  | resolving
  | resolved
deriving Repr, DecidableEq

/-- A registered module record (the `Module` constructor in container.js):
`state` starts at `registered`, `exported` starts at `null` (here `none`),
and `resolvingPromise` is assigned the in-flight resolution when the engine
starts resolving the module.  `exported` and `resolvingPromise` hold settled
promise outcomes: `some (.ok v)` a fulfilled value, `some (.error e)` a
cached rejection. -/
structure Module where
  name : String
  dependencies : List String
  define : DefineFn
  state : ModuleState := .registered
  exported : Option (Except String Value) := none
  resolvingPromise : Option (Except String Value) := none

/-- The options recognized by a container (`mock_modules` and
`partial_mock_modules` are truthy-keyed objects in the source; here the sets
of names with a truthy entry). -/
structure Options where
  mock_modules : List String := []
  partial_mock_modules : List String := []

/-- One recorded invocation of a module's `define` function (ghost
instrumentation: the spec's "observable via a call counter").
`fromShadow` is true when the invoked record lived in the shadow registry
(`_partial_modules`). -/
structure DefineCall where
  name : String
  fromShadow : Bool
  args : List Value
deriving Repr, DecidableEq

/-- Association-list lookup, mirroring JavaScript property access on the
plain objects `_modules` / `_partial_modules`. -/
def alookup {α : Type} : List (String × α) → String → Option α
  | [], _ => none
  | (k', v) :: rest, k => if k' = k then some v else alookup rest k

/-- Association-list update, mirroring JavaScript property assignment:
replaces an existing binding in place, otherwise appends (JavaScript objects
keep string keys in insertion order). -/
def aset {α : Type} : List (String × α) → String → α → List (String × α)
  | [], k, v => [(k, v)]
  | (k', v') :: rest, k, v =>
      if k' = k then (k, v) :: rest else (k', v') :: aset rest k v

/-- The container (`Container` constructor): the main registry `_modules`,
the shadow registry `_partial_modules` (holding, for a partial-mocked name,
the module that was registered at the name before the override replaced it),
the cached cycle-detection result `_cycles` (`none` = invalidated), the
options, and the ghost log of `define` invocations. -/
structure Container where
  modules : List (String × Module) := []
  partial_modules : List (String × Module) := []
  cycles : Option (List (List String)) := none
  options : Options := {}
  defineCalls : List DefineCall := []

/-- A fresh container (the `Container` constructor with the given options). -/
def mkContainer (opts : Options) : Container := { options := opts }

/-- The dependency declaration passed to `register` / `inject`: `undefined` a
missing (falsy) argument; `func` a bare function — modelled from the spec:
extractDep.js (the signature extractor) is not under src/, and §6 of the
spec contracts it as `extract(callable) -> orderedDependencyNames`, the
callable's declared parameter names, which a function value here carries
explicitly; `arr` an array whose leading elements are explicit dependency
names and whose last element should be the function (`lastFn = none` models
a last element that is not callable, or an empty array). -/
inductive DepsDecl where
  | undefined
  | func (params : List String) (body : DefineFn)
  | arr (deps : List String) (lastFn : Option DefineFn)

/-- `extractDependencies` in container.js: a function keeps its inferred
parameter names as dependencies; an array is split into its leading names
(`deps.slice(0, -1)`) and its final element. -/
def extractDependencies : DepsDecl → List String × Option DefineFn
  | .undefined => ([], none)
  | .func params body => (params, some body)
  | .arr deps lastFn => (deps, lastFn)

/-- `Container.prototype.register`.  The source first invalidates `_cycles`,
then validates the name and the declaration, then applies the overwrite
policy: a name in the full-mock set is silently ignored, a name in the
partial-mock set moves the existing record into the shadow registry before
installing the new one, any other duplicate throws.  A thrown error is
modelled by `.error` (the caller's container is kept; the only mutation the
source performs before throwing is the `_cycles` invalidation, which is
observationally irrelevant because a registration that throws leaves the
graph unchanged, so the stale cache still describes the current graph). -/
def Container.register (c : Container) (name : String) (deps : DepsDecl) :
    Except String Container :=
  let c := { c with cycles := none }
  if name = "" then .error "Must have a name"
  else
    match deps with
    | .undefined => .error ("Must give a function for module " ++ name)
    | _ =>
      let extracted := extractDependencies deps
      match extracted.2 with
      | none => .error ("Must give a function for module " ++ name)
      | some fn =>
        let newMod : Module :=
          { name := name, dependencies := extracted.1, define := fn }
        match alookup c.modules name with
        | some existing =>
            if name ∈ c.options.mock_modules then .ok c
            else if name ∈ c.options.partial_mock_modules then
              .ok { c with
                      partial_modules := aset c.partial_modules name existing,
                      modules := aset c.modules name newMod }
            else .error (name ++ " already registered")
        | none => .ok { c with modules := aset c.modules name newMod }

/-- `Container.prototype.isRegistered`: pure lookup. -/
def Container.isRegistered (c : Container) (moduleName : String) : Bool :=
  (alookup c.modules moduleName).isSome

/-- `Container.prototype.registerAndExport`: registers a zero-dependency
module returning `obj` and immediately marks it resolved with `exported`
set.  When `register` silently ignored the call (full-mock name), the
source mutates whatever record sits at the name, exactly as modelled. -/
def Container.registerAndExport (c : Container) (name : String) (obj : Value) :
    Except String Container :=
  match c.register name (.func [] (fun _ => .ok obj)) with
  | .error e => .error e
  | .ok c' =>
    match alookup c'.modules name with
    | none => .ok c'     -- unreachable: a successful register leaves a record
    | some m =>
        let m' : Module :=
          { m with state := .resolved, exported := some (.ok obj) }
        .ok { c' with modules := aset c'.modules name m' }

/-! ## Cycle detection (modelled from the spec) -/

/-- The recorded cycle: the sub-path of the current path from the first
occurrence of `n` to the current node (spec §4.2). -/
def cycleFrom (path : List String) (n : String) : List String :=
  path.dropWhile (· ≠ n)

/-- Modelled from the spec: cycleDetection.js (`detectCycle`) is not under
src/.  Spec §4.2: a depth-first traversal tracking the current path stack;
a cycle is recorded when traversal reaches a name already present on the
current path, taken as the sub-path from that name's first occurrence to
the current node; self-loops are a degenerate one-element cycle.  An edge
to a name with no registered module ends the traversal of that branch (the
spec's input is the set of registered modules).  `fuel` bounds the path
depth; the path holds pairwise-distinct registered names, so
`g.length + 1` always suffices. -/
def dfsVisit (g : List (String × Module)) :
    Nat → List String → String → List (List String)
  | 0, _, _ => []
  | fuel + 1, path, n =>
      if n ∈ path then [cycleFrom path n]
      else
        match alookup g n with
        | none => []
        | some m =>
            (m.dependencies.map (fun d => dfsVisit g fuel (path ++ [n]) d)).flatten

/-- Keep the first occurrence of each cycle (spec §4.2: the set of distinct
cycles). -/
def dedupCycles (l : List (List String)) : List (List String) :=
  l.foldl (fun acc cyc => if cyc ∈ acc then acc else acc ++ [cyc]) []

/-- Modelled from the spec (see `dfsVisit`): traversal starts from every
registered module. -/
def detectCycle (g : List (String × Module)) : List (List String) :=
  dedupCycles ((g.map (fun p => dfsVisit g (g.length + 1) [] p.1)).flatten)

/-- Pretty-printing of one cycle in `Container.prototype.resolve`: the
cycle's module names, then the first name repeated, joined by " -> ". -/
def prettyCycle (cyc : List String) : String :=
  String.intercalate " -> " (cyc ++ [cyc.headD ""])

/-- All the detected cycles joined by newlines (container.js lines 176-184). -/
def prettyCycles (cycles : List (List String)) : String :=
  String.intercalate "\n" (cycles.map prettyCycle)

/-- The cycle set `resolve` works with: the cached `_cycles` when present,
otherwise a fresh `detectCycle` run. -/
def cyclesOf (c : Container) : List (List String) :=
  match c.cycles with
  | some cs => cs
  | none => detectCycle c.modules

/-! ## The resolution engine -/

/-- `Promise.resolve(module.exported)` on a cache hit: a settled outcome is
returned as-is; the initial `null` (never reachable while `state` only
becomes `resolved` together with `exported`) resolves to `null`. -/
def promiseOf : Option (Except String Value) → Except String Value
  | some r => r
  | none => .ok .vnull

/-- Returning `module.resolvingPromise` from the `resolving` branch: the
settled in-flight outcome, or JavaScript `undefined` when the field was
never assigned. -/
def inFlightOf : Option (Except String Value) → Except String Value
  | some r => r
  | none => .ok .vundefined

/-- The `forEach` validation in `resolve`: the first declared dependency
with no record in the main registry, if any (the `forEach` throws at the
first offender). -/
def firstMissingDep (c : Container) (deps : List String) : Option String :=
  deps.find? (fun d => (alookup c.modules d).isNone)

/-- `Container.prototype.performPartialMock`: iterates the enumerable keys
of the *original* (active-resolved) value and, for each key whose value on
the partial (shadow-resolved) value is loosely `!= undefined` (so neither
`undefined` nor `null`), overwrites the original's property with the
shadow's.  Properties present only on the shadow are never visited.  A
non-object original is returned unchanged (no claim exercises that case). -/
def performPartialMock (original partialVal : Value) : Value :=
  match original with
  | .vobj fields =>
      .vobj (fields.map (fun kv =>
        match partialVal with
        | .vobj pfields =>
            match alookup pfields kv.1 with
            | some .pundefined => kv
            | some .pnull => kv
            | some p => (kv.1, p)
            | none => kv
        | _ => kv))
  | v => v

/-- The overlay as claim C5's words describe it (for comparison with
`performPartialMock`, which is the source's behaviour): every enumerable
property of the *shadow*-resolved value that is not `undefined` is copied
onto the active-resolved value. -/
def specOverlay (original partialVal : Value) : Value :=
  match original, partialVal with
  | .vobj fields, .vobj pfields =>
      .vobj (pfields.foldl
        (fun acc kv => if kv.2 = .pundefined then acc else aset acc kv.1 kv.2)
        fields)
  | v, _ => v

/-- `Promise.all` over the settled dependency outcomes: the first rejection
in declaration order, otherwise the fulfilled values in declaration order
(in the deterministic embedding every dependency promise has settled by the
time the combination is read; the source's dependency promises likewise all
keep running regardless of an earlier sibling's rejection). -/
def allOk : List (Except String Value) → Except String (List Value)
  | [] => .ok []
  | .error e :: _ => .error e
  | .ok v :: rest =>
      match allOk rest with
      | .error e => .error e
      | .ok vs => .ok (v :: vs)

/-- `module.dependencies.map(dep => container.resolve(dep.name))`: resolve
each dependency in declaration order, threading the container.  (The
source's guard `dep.state || dep.state === 'registered'` is always truthy —
`state` is a non-empty string — so the `dep.exported` branch is dead code
and every dependency goes through `resolve`.) -/
def resolveDepsWith (f : Container → String → Except String Value × Container) :
    Container → List String → List (Except String Value) × Container
  | c, [] => ([], c)
  | c, d :: ds =>
      let p := f c d
      let q := resolveDepsWith f p.2 ds
      (p.1 :: q.1, q.2)

/-- Store a record into its own registry slot (`module.state = …` mutating
the record `resolve` is working on). -/
def storeModule (c : Container) (name : String) (fromShadow : Bool)
    (m : Module) : Container :=
  if fromShadow then { c with partial_modules := aset c.partial_modules name m }
  else { c with modules := aset c.modules name m }

/-- The success continuation's stores: the record (mutated to `resolved`)
sits in its own registry slot, and `this._modules[name] = module`
additionally writes it into the *main* registry — for a shadow resolution
this clobbers the active record at `name` with the shadow record. -/
def storeResolved (c : Container) (name : String) (fromShadow : Bool)
    (m : Module) : Container :=
  if fromShadow then
    { c with partial_modules := aset c.partial_modules name m,
             modules := aset c.modules name m }
  else { c with modules := aset c.modules name m }

/-- One step of `Container.prototype.resolve`, with the recursive calls
abstracted as `recurse`.  The branches, in source order: missing record;
resolved cache hit; dependency-registration check; cycle detection (cached
per graph mutation) and rejection; in-flight memoization; otherwise mark
`resolving`, resolve the dependencies, run `define` (recording the call),
store the outcome, and — for an active resolution of a name with a shadow
record — resolve the shadow and overlay it onto the active value. -/
def resolveStep
    (recurse : Container → String → Bool → Except String Value × Container)
    (c : Container) (name : String) (fromShadow : Bool) :
    Except String Value × Container :=
  match (if fromShadow then alookup c.partial_modules name
         else alookup c.modules name) with
  | none => (.error ("Missing dependency `" ++ name ++ "`"), c)
  | some m =>
    if m.state = .resolved then
      (promiseOf m.exported, c)
    else
      match firstMissingDep c m.dependencies with
      | some d =>
          (.error ("Dependency not found " ++ d ++ " for module " ++ name), c)
      | none =>
        let cs := cyclesOf c
        let c1 : Container := { c with cycles := some cs }
        if cs = [] then
          if m.state = .resolving then
            (inFlightOf m.resolvingPromise, c1)
          else
            let m1 : Module := { m with state := .resolving }
            let c2 := storeModule c1 name fromShadow m1
            let dr := resolveDepsWith (fun cc d => recurse cc d false)
                        c2 m1.dependencies
            -- the settled `module.resolvingPromise` with the record stored:
            -- on a dependency rejection the `.then` never runs (the record
            -- stays `resolving`); on success `define` runs and the record
            -- advances to `resolved`, `this._modules[name] = module`
            let rc : Except String Value × Container :=
              match allOk dr.1 with
              | .error e =>
                  (.error e, storeModule dr.2 name fromShadow
                    { m1 with resolvingPromise := some (.error e) })
              | .ok vals =>
                  let r := m1.define vals
                  let m2 : Module := { m1 with state := .resolved,
                                               exported := some r,
                                               resolvingPromise := some r }
                  let c4 : Container := { dr.2 with
                    defineCalls := dr.2.defineCalls ++
                      [{ name := name, fromShadow := fromShadow, args := vals }] }
                  (r, storeResolved c4 name fromShadow m2)
            -- the partial-mock branch runs whether or not the active
            -- resolution will fail: the source checks it right after the
            -- promise chain is assigned
            match fromShadow, alookup rc.2.partial_modules name with
            | false, some _ =>
                let sr := recurse rc.2 name true
                match sr.1 with
                | .error e => (.error e, sr.2)
                | .ok shadowVal =>
                    match rc.1 with
                    | .error e => (.error e, sr.2)
                    | .ok activeVal =>
                        (.ok (performPartialMock activeVal shadowVal), sr.2)
            | _, _ => rc
        else
          (.error ("Circular dependency detected with " ++ name ++ ":\n"
                   ++ prettyCycles cs), c1)

/-- The fuel-indexed resolution interpreter.  Fuel only bounds recursion
depth; the source recurses on the (cycle-checked) dependency graph, so any
fuel above the graph's depth gives the source's behaviour. -/
def resolveFuel : Nat → Container → String → Bool →
    Except String Value × Container
  | 0, c, _, _ => (.error "out of fuel", c)
  | fuel + 1, c, name, fromShadow =>
      resolveStep (fun cc nn ss => resolveFuel fuel cc nn ss) c name fromShadow

/-- `Container.prototype.resolve(name)` (the default `partial = false`
entry point), with fuel ample for any graph the registry can hold. -/
def Container.resolve (c : Container) (name : String) :
    Except String Value × Container :=
  resolveFuel (2 * c.modules.length + 2) c name false

/-! ## Observers and the operation semantics -/

/-- Lifecycle order: `registered → resolving → resolved`. -/
def rank : ModuleState → Nat
  | .registered => 0
  | .resolving => 1
  | .resolved => 2

/-- The data-model invariant of spec §3: `exported` is populated if and
only if `state = resolved`. -/
def exportedIffResolved (m : Module) : Prop :=
  m.exported.isSome ↔ m.state = .resolved

/-- The invariant over every module record the container owns (both
registries). -/
def Inv (c : Container) : Prop :=
  (∀ p ∈ c.modules, exportedIffResolved p.2) ∧
  (∀ p ∈ c.partial_modules, exportedIffResolved p.2)

/-- How many times `name`'s `define` has run (the spec's call counter). -/
def countDefine (c : Container) (n : String) : Nat :=
  (c.defineCalls.filter (fun dc => dc.name == n)).length

/-- One externally visible registry operation. -/
inductive Op where
  | register (name : String) (deps : DepsDecl)
  | registerAndExport (name : String) (v : Value)
  | resolve (fuel : Nat) (name : String)

/-- Run one operation; a thrown registration error leaves the container as
it was (the source's only pre-throw mutation, the `_cycles` invalidation,
is observationally irrelevant — see `Container.register`). -/
def step (c : Container) (op : Op) : Container :=
  match op with
  | .register n d =>
      match c.register n d with
      | .ok c' => c'
      | .error _ => c
  | .registerAndExport n v =>
      match c.registerAndExport n v with
      | .ok c' => c'
      | .error _ => c
  | .resolve fuel n => (resolveFuel fuel c n false).2

/-- Run a sequence of operations. -/
def runOps (c : Container) (ops : List Op) : Container :=
  ops.foldl step c

/-! ## Basic lemmas -/

instance exceptDecEq {ε α : Type} [DecidableEq ε] [DecidableEq α] :
    DecidableEq (Except ε α)
  | .ok x, .ok y =>
      if h : x = y then .isTrue (by rw [h])
      else .isFalse (by intro hh; cases hh; exact h rfl)
  | .error x, .error y =>
      if h : x = y then .isTrue (by rw [h])
      else .isFalse (by intro hh; cases hh; exact h rfl)
  | .ok _, .error _ => .isFalse (by intro h; cases h)
  | .error _, .ok _ => .isFalse (by intro h; cases h)

theorem alookup_aset {α : Type} (l : List (String × α)) (k k' : String) (v : α) :
    alookup (aset l k v) k' = if k = k' then some v else alookup l k' := by
  induction l with
  | nil =>
      by_cases h : k = k' <;> simp [aset, alookup, h]
  | cons hd tl ih =>
      obtain ⟨k₀, v₀⟩ := hd
      by_cases h₀ : k₀ = k
      · subst h₀
        by_cases h : k₀ = k' <;> simp [aset, alookup, h]
      · by_cases h : k₀ = k'
        · subst h
          have hkk : ¬ k = k₀ := fun hh => h₀ hh.symm
          simp [aset, alookup, h₀, hkk, ih]
        · simp [aset, alookup, h₀, h, ih]

theorem mem_aset {α : Type} (l : List (String × α)) (k : String) (v : α)
    (p : String × α) (hp : p ∈ aset l k v) : p = (k, v) ∨ p ∈ l := by
  induction l with
  | nil => simpa [aset] using hp
  | cons hd tl ih =>
      obtain ⟨k₀, v₀⟩ := hd
      by_cases h₀ : k₀ = k
      · simp only [aset, if_pos h₀, List.mem_cons] at hp
        rcases hp with h | h
        · exact .inl h
        · exact .inr (List.mem_cons_of_mem _ h)
      · simp only [aset, if_neg h₀, List.mem_cons] at hp
        rcases hp with h | h
        · exact .inr (by simp [h])
        · rcases ih h with h' | h'
          · exact .inl h'
          · exact .inr (List.mem_cons_of_mem _ h')

theorem alookup_mem {α : Type} (l : List (String × α)) (k : String) (v : α)
    (h : alookup l k = some v) : (k, v) ∈ l := by
  induction l with
  | nil => simp [alookup] at h
  | cons hd tl ih =>
      obtain ⟨k₀, v₀⟩ := hd
      by_cases h₀ : k₀ = k
      · subst h₀
        simp only [alookup, if_pos trivial, if_true, eq_self_iff_true,
          Option.some.injEq] at h
        subst h
        exact List.mem_cons_self _ _
      · simp only [alookup, if_neg h₀] at h
        exact List.mem_cons_of_mem _ (ih h)

theorem aset_aset {α : Type} (l : List (String × α)) (k : String) (v w : α) :
    aset (aset l k v) k w = aset l k w := by
  induction l with
  | nil => simp [aset]
  | cons hd tl ih =>
      obtain ⟨k₀, v₀⟩ := hd
      by_cases h₀ : k₀ = k
      · simp [aset, h₀]
      · simp [aset, h₀, ih]

/-- Writing the already-cached cycle list back is the identity. -/
theorem cycles_eta (c : Container) (cs : List (List String))
    (h : c.cycles = some cs) : { c with cycles := some cs } = c := by
  cases c
  simp_all

theorem cyclesOf_cached (c : Container) (cs : List (List String))
    (h : c.cycles = some cs) : cyclesOf c = cs := by
  simp [cyclesOf, h]

/-! ## Branch lemmas for the resolution engine -/

theorem resolveFuel_succ (fuel : Nat) (c : Container) (name : String) (s : Bool) :
    resolveFuel (fuel + 1) c name s =
      resolveStep (fun cc nn ss => resolveFuel fuel cc nn ss) c name s := rfl

/-- Branch 1 of `resolve`: no record at the name. -/
theorem resolveStep_missing
    (f : Container → String → Bool → Except String Value × Container)
    (c : Container) (name : String) (s : Bool)
    (h : (if s then alookup c.partial_modules name
          else alookup c.modules name) = none) :
    resolveStep f c name s = (.error ("Missing dependency `" ++ name ++ "`"), c) := by
  unfold resolveStep
  rw [h]

/-- Branch 2 of `resolve`: resolved cache hit, no recomputation, the
container untouched. -/
theorem resolveStep_cached
    (f : Container → String → Bool → Except String Value × Container)
    (c : Container) (name : String) (s : Bool) (m : Module)
    (h : (if s then alookup c.partial_modules name
          else alookup c.modules name) = some m)
    (hst : m.state = .resolved) :
    resolveStep f c name s = (promiseOf m.exported, c) := by
  unfold resolveStep
  rw [h]
  simp [hst]

/-- Branch 3 of `resolve`: a declared dependency has no record; the error
names the first offender and nothing has been mutated. -/
theorem resolveStep_depMissing
    (f : Container → String → Bool → Except String Value × Container)
    (c : Container) (name : String) (s : Bool) (m : Module) (d : String)
    (h : (if s then alookup c.partial_modules name
          else alookup c.modules name) = some m)
    (hst : m.state ≠ .resolved)
    (hdep : firstMissingDep c m.dependencies = some d) :
    resolveStep f c name s =
      (.error ("Dependency not found " ++ d ++ " for module " ++ name), c) := by
  unfold resolveStep
  rw [h]
  simp [hst, hdep]

/-- Branch 4 of `resolve`: the (fresh or cached) cycle set is non-empty;
the resolution fails with the enumerated cycles and the only mutation is
the cycle cache. -/
theorem resolveStep_circular
    (f : Container → String → Bool → Except String Value × Container)
    (c : Container) (name : String) (s : Bool) (m : Module)
    (h : (if s then alookup c.partial_modules name
          else alookup c.modules name) = some m)
    (hst : m.state ≠ .resolved)
    (hdep : firstMissingDep c m.dependencies = none)
    (hcyc : cyclesOf c ≠ []) :
    resolveStep f c name s =
      (.error ("Circular dependency detected with " ++ name ++ ":\n"
               ++ prettyCycles (cyclesOf c)),
       { c with cycles := some (cyclesOf c) }) := by
  unfold resolveStep
  rw [h]
  simp [hst, hdep, hcyc]

/-- A resolved record is a cache hit whatever the fuel (fuel only limits
recursion and a cache hit does not recurse). -/
theorem resolveFuel_cached_false (g : Nat) (c : Container) (d : String)
    (md : Module) (h : alookup c.modules d = some md)
    (hst : md.state = .resolved) :
    resolveFuel (g + 1) c d false = (promiseOf md.exported, c) := by
  rw [resolveFuel_succ]
  exact resolveStep_cached _ _ _ _ _ (by simpa using h) hst

/-- When every declared dependency has a record, the `forEach` validation
passes. -/
theorem firstMissingDep_none (c : Container) (deps : List String)
    (h : ∀ d ∈ deps, (alookup c.modules d).isSome) :
    firstMissingDep c deps = none := by
  rw [firstMissingDep, List.find?_eq_none]
  intro d hd
  have := h d hd
  intro hnone
  rw [Option.isNone_iff_eq_none] at hnone
  rw [hnone] at this
  simp at this

/-- Resolving a list of dependencies that are all cache hits returns their
cached outcomes in declaration order and leaves the container untouched. -/
theorem resolveList_cached (g : Nat) (outs : String → Except String Value) :
    ∀ (deps : List String) (c : Container),
      (∀ d ∈ deps, ∃ md, alookup c.modules d = some md ∧
        md.state = .resolved ∧ md.exported = some (outs d)) →
      resolveDepsWith (fun cc d => resolveFuel (g + 1) cc d false) c deps
        = (deps.map outs, c) := by
  intro deps
  induction deps with
  | nil => intro c _; rfl
  | cons d ds ih =>
      intro c hdeps
      obtain ⟨md, hmd, hst, hex⟩ := hdeps d (List.mem_cons_self _ _)
      have hres := resolveFuel_cached_false g c d md hmd hst
      have hrest := ih c (fun x hx => hdeps x (List.mem_cons_of_mem _ hx))
      simp [resolveDepsWith, hres, hrest, hex, promiseOf]

/-- `Promise.all` over uniformly fulfilled outcomes. -/
theorem allOk_ok_map (vs : String → Value) :
    ∀ deps : List String,
      allOk (deps.map (fun d => Except.ok (vs d))) = .ok (deps.map vs) := by
  intro deps
  induction deps with
  | nil => rfl
  | cons d ds ih => simp [allOk, ih]

/-- Branch 5 of `resolve`: the record is mid-resolution; the in-flight
handle is returned as-is, no new resolution starts, no `define` runs, and
the only mutation is the cycle cache. -/
theorem resolveStep_inflight
    (f : Container → String → Bool → Except String Value × Container)
    (c : Container) (name : String) (s : Bool) (m : Module)
    (h : (if s then alookup c.partial_modules name
          else alookup c.modules name) = some m)
    (hst : m.state = .resolving)
    (hdep : firstMissingDep c m.dependencies = none)
    (hcyc : cyclesOf c = []) :
    resolveStep f c name s =
      (inFlightOf m.resolvingPromise, { c with cycles := some [] }) := by
  unfold resolveStep
  rw [h]
  simp [hst, hdep, hcyc]


/-- The main branch when every dependency is already resolved but their
combined outcome is a rejection (`Promise.all` rejects): the module's state
stays `resolving`, the rejection is stored in `resolvingPromise`, and no
`define` runs. -/
theorem resolve_main_depfail (g : Nat) (c : Container) (name : String)
    (m : Module) (outs : String → Except String Value) (e : String)
    (hm : alookup c.modules name = some m)
    (hst : m.state = .registered)
    (hdeps : ∀ d ∈ m.dependencies, ∃ md, alookup c.modules d = some md ∧
      md.state = .resolved ∧ md.exported = some (outs d))
    (hcyc : cyclesOf c = [])
    (hfail : allOk (m.dependencies.map outs) = .error e)
    (hshadow : alookup c.partial_modules name = none) :
    resolveFuel (g + 2) c name false =
      (.error e,
       { c with cycles := some [],
                modules := aset c.modules name
                             { m with state := .resolving,
                                      resolvingPromise := some (.error e) } }) := by
  have hdepnone : firstMissingDep c m.dependencies = none := by
    refine firstMissingDep_none _ _ (fun d hd => ?_)
    obtain ⟨md, hmd, _, _⟩ := hdeps d hd
    simp [hmd]
  have hdne : ∀ d ∈ m.dependencies, ¬ (name = d) := by
    intro d hd hne
    obtain ⟨md, hmd, hstd, _⟩ := hdeps d hd
    rw [← hne, hm] at hmd
    cases hmd
    rw [hst] at hstd
    cases hstd
  have hdeps2 : ∀ d ∈ m.dependencies,
      ∃ md, alookup (aset c.modules name { m with state := .resolving }) d
              = some md ∧
        md.state = .resolved ∧ md.exported = some (outs d) := by
    intro d hd
    obtain ⟨md, hmd, hstd, hex⟩ := hdeps d hd
    refine ⟨md, ?_, hstd, hex⟩
    simpa [alookup_aset, hdne d hd] using hmd
  have hlist := resolveList_cached g outs m.dependencies
    { c with cycles := some [],
             modules := aset c.modules name { m with state := .resolving } }
    (fun d hd => by simpa using hdeps2 d hd)
  show resolveFuel (g + 1 + 1) c name false = _
  rw [resolveFuel_succ]
  unfold resolveStep
  simp only [Bool.false_eq_true, if_false, hm, hst]
  simp only [hdepnone, hcyc, storeModule]
  simp only [reduceCtorEq, if_false, if_true]
  simp only [hlist, hfail, aset_aset, Bool.false_eq_true, if_false]
  rw [hshadow]

/-- The main branch when every dependency is already resolved with a
fulfilled value and the name has no shadow record: `define` runs once with
the cached values in declaration order, the record advances to `resolved`
with the outcome cached in `exported`. -/
theorem resolve_main_define (g : Nat) (c : Container) (name : String)
    (m : Module) (outs : String → Except String Value) (vals : List Value)
    (hm : alookup c.modules name = some m)
    (hst : m.state = .registered)
    (hdeps : ∀ d ∈ m.dependencies, ∃ md, alookup c.modules d = some md ∧
      md.state = .resolved ∧ md.exported = some (outs d))
    (hcyc : cyclesOf c = [])
    (hok : allOk (m.dependencies.map outs) = .ok vals)
    (hshadow : alookup c.partial_modules name = none) :
    resolveFuel (g + 2) c name false =
      (m.define vals,
       { c with cycles := some [],
                modules := aset c.modules name
                             { m with state := .resolved,
                                      exported := some (m.define vals),
                                      resolvingPromise := some (m.define vals) },
                defineCalls := c.defineCalls ++
                  [{ name := name, fromShadow := false, args := vals }] }) := by
  have hdepnone : firstMissingDep c m.dependencies = none := by
    refine firstMissingDep_none _ _ (fun d hd => ?_)
    obtain ⟨md, hmd, _, _⟩ := hdeps d hd
    simp [hmd]
  have hdne : ∀ d ∈ m.dependencies, ¬ (name = d) := by
    intro d hd hne
    obtain ⟨md, hmd, hstd, _⟩ := hdeps d hd
    rw [← hne, hm] at hmd
    cases hmd
    rw [hst] at hstd
    cases hstd
  have hdeps2 : ∀ d ∈ m.dependencies,
      ∃ md, alookup (aset c.modules name { m with state := .resolving }) d
              = some md ∧
        md.state = .resolved ∧ md.exported = some (outs d) := by
    intro d hd
    obtain ⟨md, hmd, hstd, hex⟩ := hdeps d hd
    refine ⟨md, ?_, hstd, hex⟩
    simpa [alookup_aset, hdne d hd] using hmd
  have hlist := resolveList_cached g outs m.dependencies
    { c with cycles := some [],
             modules := aset c.modules name { m with state := .resolving } }
    (fun d hd => by simpa using hdeps2 d hd)
  show resolveFuel (g + 1 + 1) c name false = _
  rw [resolveFuel_succ]
  unfold resolveStep
  simp only [Bool.false_eq_true, if_false, hm, hst]
  simp only [hdepnone, hcyc, storeModule]
  simp only [reduceCtorEq, if_false, if_true]
  simp only [hlist, hok, storeResolved, Bool.false_eq_true, if_false, hshadow,
    aset_aset]

/-- A shadow (`partial = true`) resolution whose dependencies are all
resolved: the shadow record advances to `resolved` and — mirroring
`this._modules[name] = module` in the success continuation — the shadow
record is also written over the *active* registry entry. -/
theorem resolve_main_shadow (g : Nat) (c : Container) (name : String)
    (msh : Module) (outs : String → Except String Value) (vals : List Value)
    (hm : alookup c.partial_modules name = some msh)
    (hst : msh.state = .registered)
    (hdeps : ∀ d ∈ msh.dependencies, ∃ md, alookup c.modules d = some md ∧
      md.state = .resolved ∧ md.exported = some (outs d))
    (hcyc : cyclesOf c = [])
    (hok : allOk (msh.dependencies.map outs) = .ok vals) :
    resolveFuel (g + 2) c name true =
      (msh.define vals,
       { c with cycles := some [],
                partial_modules := aset c.partial_modules name
                             { msh with state := .resolved,
                                        exported := some (msh.define vals),
                                        resolvingPromise := some (msh.define vals) },
                modules := aset c.modules name
                             { msh with state := .resolved,
                                        exported := some (msh.define vals),
                                        resolvingPromise := some (msh.define vals) },
                defineCalls := c.defineCalls ++
                  [{ name := name, fromShadow := true, args := vals }] }) := by
  have hdepnone : firstMissingDep c msh.dependencies = none := by
    refine firstMissingDep_none _ _ (fun d hd => ?_)
    obtain ⟨md, hmd, _, _⟩ := hdeps d hd
    simp [hmd]
  have hlist := resolveList_cached g outs msh.dependencies
    { c with cycles := some [],
             partial_modules := aset c.partial_modules name
                                  { msh with state := .resolving } }
    (fun d hd => by simpa using hdeps d hd)
  show resolveFuel (g + 1 + 1) c name true = _
  rw [resolveFuel_succ]
  unfold resolveStep
  simp only [if_true, hm, hst]
  simp only [hdepnone, hcyc, storeModule]
  simp only [reduceCtorEq, if_false, if_true]
  simp only [hlist, hok, storeResolved, aset_aset, ite_true, if_true]


/-- An active resolution of a partial-mocked name, every dependency of the
active and the shadow module already resolved: the caller receives the
active value overlaid (per `performPartialMock`) with the shadow value. -/
theorem resolve_main_overlay (g : Nat) (c : Container) (name : String)
    (m msh : Module) (outs1 outs2 : String → Except String Value)
    (valsA valsSh : List Value) (aVal sVal : Value)
    (hm : alookup c.modules name = some m)
    (hst : m.state = .registered)
    (hdepsA : ∀ d ∈ m.dependencies, ∃ md, alookup c.modules d = some md ∧
      md.state = .resolved ∧ md.exported = some (outs1 d))
    (hcyc : cyclesOf c = [])
    (hokA : allOk (m.dependencies.map outs1) = .ok valsA)
    (hdfnA : m.define valsA = .ok aVal)
    (hsh : alookup c.partial_modules name = some msh)
    (hstsh : msh.state = .registered)
    (hdepsSh : ∀ d ∈ msh.dependencies, ∃ md, alookup c.modules d = some md ∧
      md.state = .resolved ∧ md.exported = some (outs2 d))
    (hokSh : allOk (msh.dependencies.map outs2) = .ok valsSh)
    (hdfnSh : msh.define valsSh = .ok sVal) :
    (resolveFuel (g + 3) c name false).1 =
      .ok (performPartialMock aVal sVal) := by
  have hdepnone : firstMissingDep c m.dependencies = none := by
    refine firstMissingDep_none _ _ (fun d hd => ?_)
    obtain ⟨md, hmd, _, _⟩ := hdepsA d hd
    simp [hmd]
  have hdne : ∀ d ∈ m.dependencies, ¬ (name = d) := by
    intro d hd hne
    obtain ⟨md, hmd, hstd, _⟩ := hdepsA d hd
    rw [← hne, hm] at hmd
    cases hmd
    rw [hst] at hstd
    cases hstd
  have hdneSh : ∀ d ∈ msh.dependencies, ¬ (name = d) := by
    intro d hd hne
    obtain ⟨md, hmd, hstd, _⟩ := hdepsSh d hd
    rw [← hne, hm] at hmd
    cases hmd
    rw [hst] at hstd
    cases hstd
  have hlist := resolveList_cached (g + 1) outs1 m.dependencies
    { c with cycles := some [],
             modules := aset c.modules name { m with state := .resolving } }
    (fun d hd => by
      obtain ⟨md, hmd, hstd, hex⟩ := hdepsA d hd
      exact ⟨md, by simpa [alookup_aset, hdne d hd] using hmd, hstd, hex⟩)
  have hdeps5 : ∀ d ∈ msh.dependencies,
      ∃ md, alookup (Container.modules
          { c with cycles := some [],
                   modules := aset c.modules name
                                { m with state := .resolved,
                                         exported := some (m.define valsA),
                                         resolvingPromise := some (m.define valsA) },
                   defineCalls := c.defineCalls ++
                     [{ name := name, fromShadow := false, args := valsA }] }) d
            = some md ∧
        md.state = .resolved ∧ md.exported = some (outs2 d) := by
    intro d hd
    obtain ⟨md, hmd, hstd, hex⟩ := hdepsSh d hd
    exact ⟨md, by simpa [alookup_aset, hdneSh d hd] using hmd, hstd, hex⟩
  have hshres := resolve_main_shadow g
    { c with cycles := some [],
             modules := aset c.modules name
                          { m with state := .resolved,
                                   exported := some (m.define valsA),
                                   resolvingPromise := some (m.define valsA) },
             defineCalls := c.defineCalls ++
               [{ name := name, fromShadow := false, args := valsA }] }
    name msh outs2 valsSh (by simpa using hsh) hstsh
    (fun d hd => by simpa using hdeps5 d hd) (by simp [cyclesOf]) hokSh
  show (resolveFuel (g + 2 + 1) c name false).1 = _
  rw [resolveFuel_succ]
  unfold resolveStep
  simp only [Bool.false_eq_true, if_false, hm, hst]
  simp only [hdepnone, hcyc, storeModule]
  simp only [reduceCtorEq, if_false, if_true]
  simp only [hlist, hokA, storeResolved, Bool.false_eq_true, if_false, hsh,
    aset_aset]
  rw [hshres]
  simp only [hdfnSh, hdfnA]

/-! ## Concrete containers (built through the registration interface) -/

/-- The diamond graph of the spec: `a → {b, c}`, `b → d`, `c → d`. -/
def cDiamond : Container :=
  runOps (mkContainer {})
    [.register "d" (.func [] (fun _ => .ok (.vstr "d"))),
     .register "b" (.func ["d"] (fun vs =>
        match vs with
        | [.vstr s] => .ok (.vstr ("b" ++ s))
        | _ => .error "unexpected arguments")),
     .register "c" (.func ["d"] (fun vs =>
        match vs with
        | [.vstr s] => .ok (.vstr ("c" ++ s))
        | _ => .error "unexpected arguments")),
     .register "a" (.func ["b", "c"] (fun vs =>
        match vs with
        | [.vstr x, .vstr y] => .ok (.vstr ("a" ++ x ++ y))
        | _ => .error "unexpected arguments"))]

/-- A container observed while `x` is mid-resolution (state `resolving`,
in-flight handle pending). -/
def cInFlight : Container :=
  let mx : Module :=
    { name := "x", dependencies := [], define := fun _ => .ok .vnull,
      state := .resolving, exported := none,
      resolvingPromise := some (.ok (.vstr "inflight")) }
  { modules := [("x", mx)] }

/-- The degenerate self-loop `a → a` (repo test "a -> a throw error"). -/
def cSelfLoop : Container :=
  runOps (mkContainer {})
    [.register "a" (.func ["a"] (fun _ => .ok (.vstr "a")))]

/-- The cycle of the repo test "a -> b -> c -> a throws error":
`a → c`, `b → a`, `c → b`. -/
def cCyc3 : Container :=
  runOps (mkContainer {})
    [.register "a" (.func ["c"] (fun _ => .ok (.vstr "a"))),
     .register "b" (.func ["a"] (fun _ => .ok (.vstr "b"))),
     .register "c" (.func ["b"] (fun _ => .ok (.vstr "c")))]

/-- The repo test "throw error when dependency is not found": `willFail`
declares the never-registered dependency `notHere`. -/
def cWillFail : Container :=
  runOps (mkContainer {})
    [.register "willFail" (.func ["notHere"] (fun _ => .ok (.vstr "ok")))]

/-- The repo test "allow mocks": `first` is in the full-mock set and is
registered twice, the mock first. -/
def cMock : Container :=
  runOps (mkContainer { mock_modules := ["first"] })
    [.register "first" (.func [] (fun _ => .ok (.vstr "mock"))),
     .register "first" (.func [] (fun _ => .ok (.vstr "orig")))]

/-- The repo test "enable mocking single function": `foo` is in the
partial-mock set; the mock (`get_x → 150`) is registered first, then the
real module (`get_x → 1, get_y → 2`), which moves the mock into the shadow
registry. -/
def cPM : Container :=
  runOps (mkContainer { partial_mock_modules := ["foo"] })
    [.register "foo" (.func [] (fun _ => .ok (.vobj [("get_x", .pint 150)]))),
     .register "foo" (.func [] (fun _ =>
        .ok (.vobj [("get_x", .pint 1), ("get_y", .pint 2)])))]

/-- Like `cPM` but the mock exposes an extra property `extra` that the real
module lacks. -/
def cPM2 : Container :=
  runOps (mkContainer { partial_mock_modules := ["foo"] })
    [.register "foo" (.func [] (fun _ =>
        .ok (.vobj [("get_x", .pint 150), ("extra", .pint 7)]))),
     .register "foo" (.func [] (fun _ =>
        .ok (.vobj [("get_x", .pint 1), ("get_y", .pint 2)])))]

/-- `z` declares its dependencies in the order `y, x`, the reverse of their
registration order. -/
def cOrder : Container :=
  runOps (mkContainer {})
    [.register "x" (.func [] (fun _ => .ok (.vstr "x"))),
     .register "y" (.func [] (fun _ => .ok (.vstr "y"))),
     .register "z" (.arr ["y", "x"] (some (fun vs =>
        match vs with
        | [.vstr a, .vstr b] => .ok (.vstr (a ++ b))
        | _ => .error "unexpected arguments")))]

/-- Like `cPM` but the real (active) module's define throws: the mock
(`get_x → 150`) is registered first, then the real `foo` whose define
rejects with "boom". -/
def cPMFail : Container :=
  runOps (mkContainer { partial_mock_modules := ["foo"] })
    [.register "foo" (.func [] (fun _ => .ok (.vobj [("get_x", .pint 150)]))),
     .register "foo" (.func [] (fun _ => .error "boom"))]

/-- `child`'s define throws; `parent` depends on `child`. -/
def cFailing : Container :=
  runOps (mkContainer {})
    [.register "child" (.func [] (fun _ => .error "boom")),
     .register "parent" (.func ["child"] (fun _ => .ok (.vstr "p")))]


/-- A chain of dependency edges starting at `a` and passing through the
listed nodes in order. -/
def isChain (g : List (String × Module)) : String → List String → Prop
  | _, [] => True
  | a, b :: rest =>
      (∃ m, alookup g a = some m ∧ b ∈ m.dependencies) ∧ isChain g b rest

theorem isMem_flatten_ne_nil {α : Type} (l : List (List α)) (x : List α)
    (hx : x ∈ l) (hne : x ≠ []) : l.flatten ≠ [] := by
  intro h
  rw [List.flatten_eq_nil_iff] at h
  exact hne (h x hx)

/-- The DFS started at a node from which a chain of edges leads back into
the current path finds a cycle. -/
theorem dfsVisit_of_chain (g : List (String × Module)) :
    ∀ (ch : List String) (fuel : Nat) (path : List String) (n : String),
      ch.length + 1 ≤ fuel →
      isChain g n ch →
      ch.getLastD n ∈ path ++ (n :: ch).dropLast →
      dfsVisit g fuel path n ≠ [] := by
  intro ch
  induction ch with
  | nil =>
      intro fuel path n hfuel _ hlast
      obtain ⟨f, rfl⟩ : ∃ f, fuel = f + 1 := ⟨fuel - 1, by omega⟩
      simp only [List.getLastD_nil, List.dropLast_single, List.append_nil]
        at hlast
      simp [dfsVisit, hlast]
  | cons d ch' ih =>
      intro fuel path n hfuel hchain hlast
      obtain ⟨⟨m, hm, hd⟩, hch⟩ := hchain
      obtain ⟨f, rfl⟩ : ∃ f, fuel = f + 1 := ⟨fuel - 1, by omega⟩
      by_cases hmem : n ∈ path
      · simp [dfsVisit, hmem]
      · have hlast' : ch'.getLastD d ∈ (path ++ [n]) ++ (d :: ch').dropLast := by
          have h1 : (d :: ch').getLastD n = ch'.getLastD d := by
            cases ch' <;> simp [List.getLastD]
          have h2 : (n :: d :: ch').dropLast = n :: (d :: ch').dropLast := rfl
          rw [h1, h2] at hlast
          simpa [List.append_assoc] using hlast
        have hih := ih f (path ++ [n]) d
          (by simpa using Nat.succ_le_succ_iff.mp hfuel) hch hlast'
        simp only [dfsVisit, if_neg hmem, hm]
        exact isMem_flatten_ne_nil _ _
          (List.mem_map_of_mem (fun dd => dfsVisit g f (path ++ [n]) dd) hd) hih

theorem dedupCycles_aux_ne_nil :
    ∀ (l : List (List String)) (acc : List (List String)), acc ≠ [] →
      l.foldl (fun acc cyc => if cyc ∈ acc then acc else acc ++ [cyc]) acc ≠ [] := by
  intro l
  induction l with
  | nil => intro acc h; exact h
  | cons x xs ih =>
      intro acc h
      by_cases hx : x ∈ acc
      · simpa [List.foldl_cons, hx] using ih acc h
      · refine by simpa [List.foldl_cons, hx] using ih (acc ++ [x]) (by simp)

/-- Deduplication never erases a non-empty cycle list. -/
theorem dedupCycles_ne_nil (l : List (List String)) (h : l ≠ []) :
    dedupCycles l ≠ [] := by
  cases l with
  | nil => exact absurd rfl h
  | cons x xs =>
      unfold dedupCycles
      rw [List.foldl_cons]
      simp only [List.not_mem_nil, if_false, List.nil_append]
      exact dedupCycles_aux_ne_nil xs [x] (by simp)

theorem chain_nodes (g : List (String × Module)) (t : String) :
    ∀ (l : List String) (a : String), isChain g a (l ++ [t]) →
      ∀ x ∈ a :: l, ∃ m, alookup g x = some m := by
  intro l
  induction l with
  | nil =>
      intro a hch x hx
      obtain ⟨⟨m, hm, _⟩, _⟩ := hch
      rcases List.mem_cons.mp hx with hx2 | hx2
      · exact ⟨m, hx2 ▸ hm⟩
      · cases hx2
  | cons b l' ih =>
      intro a hch x hx
      obtain ⟨⟨m, hm, _⟩, hrest⟩ := hch
      rcases List.mem_cons.mp hx with hx2 | hx2
      · exact ⟨m, hx2 ▸ hm⟩
      · exact ih b hrest x hx2

/-- Completeness of the modelled detector: a genuine cycle — a non-empty,
duplicate-free list of nodes with a dependency edge from each to the next
and from the last back to the first — makes `detectCycle` report at least
one cycle. -/
theorem detectCycle_complete (g : List (String × Module)) (h0 : String)
    (rest : List String)
    (hnd : (h0 :: rest).Nodup)
    (hch : isChain g h0 (rest ++ [h0])) :
    detectCycle g ≠ [] := by
  have hkeys : ∀ x ∈ h0 :: rest, x ∈ g.map Prod.fst := by
    intro x hx
    obtain ⟨m, hm⟩ := chain_nodes g h0 rest h0 hch x hx
    exact List.mem_map.mpr ⟨(x, m), alookup_mem _ _ _ hm, rfl⟩
  have hlen : rest.length + 1 ≤ g.length := by
    have hsub := (List.subperm_of_subset hnd hkeys).length_le
    simpa using hsub
  have hvis : dfsVisit g (g.length + 1) [] h0 ≠ [] := by
    refine dfsVisit_of_chain g (rest ++ [h0]) (g.length + 1) [] h0 (by simp; omega)
      hch ?_
    have h1 : (rest ++ [h0]).getLastD h0 = h0 := by simp
    have h2 : (h0 :: (rest ++ [h0])).dropLast = h0 :: rest := by
      have : h0 :: (rest ++ [h0]) = (h0 :: rest) ++ [h0] := by simp
      rw [this, List.dropLast_concat]
    rw [h1, h2]
    simp
  obtain ⟨m0, hm0⟩ : ∃ m, alookup g h0 = some m := by
    cases rest with
    | nil => exact ⟨_, hch.1.choose_spec.1⟩
    | cons b l' => exact ⟨_, hch.1.choose_spec.1⟩
  unfold detectCycle
  apply dedupCycles_ne_nil
  exact isMem_flatten_ne_nil _ _
    (List.mem_map.mpr ⟨(h0, m0), alookup_mem _ _ _ hm0, rfl⟩) hvis

/-! ## Claim theorems -/

/-- C2: while a module's state is `resolving`, a further resolve call for
the same name returns the already-in-flight resolution handle instead of
starting a new one (the only mutation is the cycle cache; in particular no
`define` runs and no new resolution begins); and for the diamond graph
`a → {b, c}`, `b → d`, `c → d`, resolving `a` invokes `d`'s define exactly
once. -/
theorem c2_resolving_memoization :
    (∀ (fuel : Nat) (c : Container) (name : String) (m : Module),
        alookup c.modules name = some m →
        m.state = .resolving →
        firstMissingDep c m.dependencies = none →
        cyclesOf c = [] →
        resolveFuel (fuel + 1) c name false =
          (inFlightOf m.resolvingPromise, { c with cycles := some [] }))
    ∧ (cDiamond.resolve "a").1 = .ok (.vstr "abdcd")
    ∧ countDefine (cDiamond.resolve "a").2 "d" = 1 := by
  refine ⟨?_, by decide, by decide⟩
  intro fuel c name m hm hst hdep hcyc
  rw [resolveFuel_succ]
  exact resolveStep_inflight _ c name false m (by simpa using hm) hst hdep hcyc

theorem c2_witness :
    resolveFuel 1 cInFlight "x" false =
      (.ok (.vstr "inflight"), { cInFlight with cycles := some [] }) :=
  c2_resolving_memoization.1 0 cInFlight "x" _ rfl rfl rfl rfl

/-- C3: when the registered graph has a cycle (per the spec-modelled
detector), resolving any not-yet-resolved module with validated
dependencies fails with a circular-dependency error whose message
enumerates every detected cycle as `m1 -> m2 -> ... -> m1`; concretely the
self-loop `a → a` and the cycle `a → c → b → a` fail that way, while the
diamond graph resolves without any error.  The modelled detector is
complete: any genuine cycle in the registered graph (a duplicate-free node
list with an edge from each node to the next and from the last back to the
first) makes it — and hence a fresh cycle check — report a cycle. -/
theorem c3_circular_rejection :
    (∀ (fuel : Nat) (c : Container) (name : String) (m : Module),
        alookup c.modules name = some m →
        m.state ≠ .resolved →
        firstMissingDep c m.dependencies = none →
        cyclesOf c ≠ [] →
        resolveFuel (fuel + 1) c name false =
          (.error ("Circular dependency detected with " ++ name ++ ":\n"
                   ++ prettyCycles (cyclesOf c)),
           { c with cycles := some (cyclesOf c) }))
    ∧ (cSelfLoop.resolve "a").1 =
        .error "Circular dependency detected with a:\na -> a"
    ∧ (cCyc3.resolve "a").1 =
        .error ("Circular dependency detected with a:\n"
                ++ "a -> c -> b -> a\nb -> a -> c -> b\nc -> b -> a -> c")
    ∧ (cDiamond.resolve "a").1 = .ok (.vstr "abdcd")
    ∧ (∀ (c : Container) (h0 : String) (rest : List String),
        c.cycles = none →
        (h0 :: rest).Nodup →
        isChain c.modules h0 (rest ++ [h0]) →
        cyclesOf c ≠ []) := by
  refine ⟨?_, by decide, by decide, by decide, ?_⟩
  · intro fuel c name m hm hst hdep hcyc
    rw [resolveFuel_succ]
    exact resolveStep_circular _ c name false m (by simpa using hm) hst hdep hcyc
  · intro c h0 rest hc hnd hch
    rw [cyclesOf, hc]
    exact detectCycle_complete c.modules h0 rest hnd hch

theorem c3_witness :
    resolveFuel 1 cSelfLoop "a" false =
      (.error "Circular dependency detected with a:\na -> a",
       { cSelfLoop with cycles := some [["a"]] }) :=
  c3_circular_rejection.1 0 cSelfLoop "a" _ rfl (by decide) rfl (by decide)

/-- C4: resolving an unregistered name fails with
``Missing dependency `name` `` and mutates nothing; for a registered,
unresolved module whose dependency list contains an unregistered name, the
resolution fails naming the first offending dependency, with the container
— hence the define-call log — untouched (so the failure precedes any
asynchronous work and any `define`); `firstMissingDep` indeed returns a
declared dependency with no record. -/
theorem c4_missing_dependency :
    (∀ (fuel : Nat) (c : Container) (name : String),
        alookup c.modules name = none →
        resolveFuel (fuel + 1) c name false =
          (.error ("Missing dependency `" ++ name ++ "`"), c))
    ∧ (∀ (fuel : Nat) (c : Container) (name : String) (m : Module) (d : String),
        alookup c.modules name = some m →
        m.state ≠ .resolved →
        firstMissingDep c m.dependencies = some d →
        resolveFuel (fuel + 1) c name false =
          (.error ("Dependency not found " ++ d ++ " for module " ++ name), c))
    ∧ (∀ (c : Container) (deps : List String) (d : String),
        firstMissingDep c deps = some d →
        d ∈ deps ∧ alookup c.modules d = none)
    ∧ ((mkContainer {}).resolve "doesntExist").1 =
        .error "Missing dependency `doesntExist`"
    ∧ (cWillFail.resolve "willFail").1 =
        .error "Dependency not found notHere for module willFail"
    ∧ countDefine (cWillFail.resolve "willFail").2 "willFail" = 0 := by
  refine ⟨?_, ?_, ?_, by decide, by decide, by decide⟩
  · intro fuel c name h
    rw [resolveFuel_succ]
    exact resolveStep_missing _ c name false (by simpa using h)
  · intro fuel c name m d hm hst hdep
    rw [resolveFuel_succ]
    exact resolveStep_depMissing _ c name false m d (by simpa using hm) hst hdep
  · intro c deps d h
    rw [firstMissingDep] at h
    refine ⟨List.mem_of_find?_eq_some h, ?_⟩
    have := List.find?_some h
    simpa [Option.isNone_iff_eq_none] using this

theorem c4_witness :
    resolveFuel 1 cWillFail "willFail" false =
      (.error "Dependency not found notHere for module willFail", cWillFail) :=
  c4_missing_dependency.2.1 0 cWillFail "willFail" _ "notHere" rfl (by decide) rfl


/-- C8: registration-time errors are raised synchronously by `register`:
an empty (falsy) name gives "Must have a name"; a missing declaration or an
explicit-array declaration whose last element is not callable gives
"Must give a function for module <name>"; and re-registering a name that is
in neither the full-mock nor the partial-mock set gives
"<name> already registered". -/
theorem c8_register_errors :
    (∀ (c : Container) (d : DepsDecl),
        Container.register c "" d = .error "Must have a name")
    ∧ (∀ (c : Container) (name : String), name ≠ "" →
        Container.register c name .undefined =
          .error ("Must give a function for module " ++ name))
    ∧ (∀ (c : Container) (name : String) (ds : List String), name ≠ "" →
        Container.register c name (.arr ds none) =
          .error ("Must give a function for module " ++ name))
    ∧ (∀ (c : Container) (name : String) (d : DepsDecl) (m : Module),
        name ≠ "" →
        (extractDependencies d).2.isSome →
        alookup c.modules name = some m →
        name ∉ c.options.mock_modules →
        name ∉ c.options.partial_mock_modules →
        Container.register c name d = .error (name ++ " already registered")) := by
  refine ⟨?_, ?_, ?_, ?_⟩
  · intro c d
    cases d <;> simp [Container.register]
  · intro c name h
    simp [Container.register, h]
  · intro c name ds h
    simp [Container.register, h, extractDependencies]
  · intro c name d m hname hfn hm hmock hpm
    cases d with
    | undefined => simp [extractDependencies] at hfn
    | func params body =>
        simp [Container.register, hname, extractDependencies, hm, hmock, hpm]
    | arr ds lastFn =>
        obtain ⟨f, hf⟩ := Option.isSome_iff_exists.mp hfn
        simp only [extractDependencies] at hf
        subst hf
        simp [Container.register, hname, extractDependencies, hm, hmock, hpm]

theorem c8_witness :
    Container.register
        (runOps (mkContainer {})
          [.register "first" (.func [] (fun _ => .ok (.vstr "mock")))])
        "first" (.func [] (fun _ => .ok (.vstr "orig")))
      = .error "first already registered" :=
  c8_register_errors.2.2.2 _ "first" _ _ (by decide) rfl rfl
    (by decide) (by decide)

/-- C9: when the registered name is in the full-mock set, a second
`register` returns without error and leaves both registries — in
particular the active mapping for the name — unchanged (only the cycle
cache is invalidated), so the first registration wins and `resolve`
returns the first definition's output ("mock", not "orig"). -/
theorem c9_full_mock_first_wins :
    (∀ (c : Container) (name : String) (d : DepsDecl) (m : Module),
        name ≠ "" →
        (extractDependencies d).2.isSome →
        alookup c.modules name = some m →
        name ∈ c.options.mock_modules →
        Container.register c name d = .ok { c with cycles := none })
    ∧ (cMock.resolve "first").1 = .ok (.vstr "mock") := by
  refine ⟨?_, by decide⟩
  intro c name d m hname hfn hm hmock
  cases d with
  | undefined => simp [extractDependencies] at hfn
  | func params body =>
      simp [Container.register, hname, extractDependencies, hm, hmock]
  | arr ds lastFn =>
      obtain ⟨f, hf⟩ := Option.isSome_iff_exists.mp hfn
      simp only [extractDependencies] at hf
      subst hf
      simp [Container.register, hname, extractDependencies, hm, hmock]

theorem c9_witness :
    Container.register
        (runOps (mkContainer { mock_modules := ["first"] })
          [.register "first" (.func [] (fun _ => .ok (.vstr "mock")))])
        "first" (.func [] (fun _ => .ok (.vstr "orig")))
      = .ok { runOps (mkContainer { mock_modules := ["first"] })
                [.register "first" (.func [] (fun _ => .ok (.vstr "mock")))]
              with cycles := none } :=
  c9_full_mock_first_wins.1 _ "first" _ _ (by decide) rfl rfl (by decide)

/-- C1 (the failing input): for the partial-mocked name `foo`, the first
`resolve` yields the overlaid value `{get_x: 150, get_y: 2}`, but — because
the shadow resolution's success continuation executes
`this._modules[name] = module`, clobbering the active record with the
shadow record — the second `resolve` returns the shadow's own cached value
`{get_x: 150}`, not the same cached exported value.  `define` is still not
re-invoked (the define-call log is unchanged by the second call). -/
theorem c1_partial_mock_breaks_cached_resolve :
    (cPM.resolve "foo").1 =
        .ok (.vobj [("get_x", .pint 150), ("get_y", .pint 2)])
    ∧ ((cPM.resolve "foo").2.resolve "foo").1 =
        .ok (.vobj [("get_x", .pint 150)])
    ∧ ((cPM.resolve "foo").2.resolve "foo").2.defineCalls =
        (cPM.resolve "foo").2.defineCalls
    ∧ ¬ ((cPM.resolve "foo").1 = ((cPM.resolve "foo").2.resolve "foo").1) := by
  refine ⟨by decide, by decide, by decide, by decide⟩

/-- C7: when a module's dependencies are all resolved, `define` receives
exactly their cached values mapped over the *declared* dependency list —
i.e. in declaration order — and that argument list is what the define-call
log records; concretely, `z` declaring `[y, x]` (the reverse of the
registration and resolution completion order) receives `["y", "x"]` and
yields "yx". -/
theorem c7_define_args_in_declared_order :
    (∀ (g : Nat) (c : Container) (name : String) (m : Module)
        (vs : String → Value),
        alookup c.modules name = some m →
        m.state = .registered →
        (∀ d ∈ m.dependencies, ∃ md, alookup c.modules d = some md ∧
          md.state = .resolved ∧ md.exported = some (.ok (vs d))) →
        cyclesOf c = [] →
        alookup c.partial_modules name = none →
        resolveFuel (g + 2) c name false =
          (m.define (m.dependencies.map vs),
           { c with cycles := some [],
                    modules := aset c.modules name
                                 { m with state := .resolved,
                                          exported :=
                                            some (m.define (m.dependencies.map vs)),
                                          resolvingPromise :=
                                            some (m.define (m.dependencies.map vs)) },
                    defineCalls := c.defineCalls ++
                      [{ name := name, fromShadow := false,
                         args := m.dependencies.map vs }] }))
    ∧ (cOrder.resolve "z").1 = .ok (.vstr "yx")
    ∧ (cOrder.resolve "z").2.defineCalls =
        [{ name := "y", fromShadow := false, args := [] },
         { name := "x", fromShadow := false, args := [] },
         { name := "z", fromShadow := false, args := [.vstr "y", .vstr "x"] }] := by
  refine ⟨?_, by decide, by decide⟩
  intro g c name m vs hm hst hdeps hcyc hshadow
  exact resolve_main_define g c name m (fun d => .ok (vs d))
    (m.dependencies.map vs) hm hst hdeps hcyc
    (allOk_ok_map vs m.dependencies) hshadow

theorem c7_witness :
    (resolveFuel 2 (runOps (mkContainer {})
        [.register "n" (.func [] (fun _ => .ok (.vstr "n")))]) "n" false).1
      = .ok (.vstr "n") :=
  congrArg Prod.fst
    (c7_define_args_in_declared_order.1 0
      (runOps (mkContainer {})
        [.register "n" (.func [] (fun _ => .ok (.vstr "n")))])
      "n" _ (fun _ => .vnull) rfl rfl
      (by intro d hd; cases hd) rfl rfl)

/-- C5 as amended: when resolving a partial-mocked name succeeds, the
caller receives the active-resolved value overlaid with the
shadow-resolved value per `performPartialMock` — i.e. every enumerable
property *of the active value* whose shadow counterpart is defined (loosely
`!= undefined`) is replaced by the shadow's, in place; properties present
only on the shadow are not copied.  The claim's own example holds: mock
`get_x → 150` over real `{get_x → 1, get_y → 2}` yields
`{get_x → 150, get_y → 2}`. -/
theorem c5_overlay_amended :
    (∀ (g : Nat) (c : Container) (name : String)
        (m msh : Module) (outs1 outs2 : String → Except String Value)
        (valsA valsSh : List Value) (aVal sVal : Value),
        alookup c.modules name = some m →
        m.state = .registered →
        (∀ d ∈ m.dependencies, ∃ md, alookup c.modules d = some md ∧
          md.state = .resolved ∧ md.exported = some (outs1 d)) →
        cyclesOf c = [] →
        allOk (m.dependencies.map outs1) = .ok valsA →
        m.define valsA = .ok aVal →
        alookup c.partial_modules name = some msh →
        msh.state = .registered →
        (∀ d ∈ msh.dependencies, ∃ md, alookup c.modules d = some md ∧
          md.state = .resolved ∧ md.exported = some (outs2 d)) →
        allOk (msh.dependencies.map outs2) = .ok valsSh →
        msh.define valsSh = .ok sVal →
        (resolveFuel (g + 3) c name false).1 =
          .ok (performPartialMock aVal sVal))
    ∧ (cPM.resolve "foo").1 =
        .ok (.vobj [("get_x", .pint 150), ("get_y", .pint 2)]) :=
  ⟨resolve_main_overlay, by decide⟩

theorem c5_witness :
    (resolveFuel 3 cPM "foo" false).1 =
      .ok (performPartialMock
        (.vobj [("get_x", .pint 1), ("get_y", .pint 2)])
        (.vobj [("get_x", .pint 150)])) :=
  c5_overlay_amended.1 0 cPM "foo" _ _ (fun _ => .ok .vnull) (fun _ => .ok .vnull)
    [] [] _ _ rfl rfl (by intro d hd; cases hd) rfl rfl rfl rfl rfl
    (by intro d hd; cases hd) rfl rfl

/-- C5 counterexample: with a shadow exposing a property `extra` that the
active value lacks, the claim's overlay (`specOverlay`, copying every
defined property of the shadow) predicts `{get_x, get_y, extra}`, but
`resolve` yields `{get_x, get_y}` — shadow-only properties are never
copied because `performPartialMock` iterates `Object.keys` of the active
value. -/
theorem c5_overlay_counterexample :
    (cPM2.resolve "foo").1 =
        .ok (.vobj [("get_x", .pint 150), ("get_y", .pint 2)])
    ∧ specOverlay (.vobj [("get_x", .pint 1), ("get_y", .pint 2)])
        (.vobj [("get_x", .pint 150), ("extra", .pint 7)])
      = .vobj [("get_x", .pint 150), ("get_y", .pint 2), ("extra", .pint 7)]
    ∧ (cPM2.resolve "foo").1 ≠
        .ok (specOverlay (.vobj [("get_x", .pint 1), ("get_y", .pint 2)])
          (.vobj [("get_x", .pint 150), ("extra", .pint 7)])) := by
  refine ⟨by decide, by decide, by decide⟩



/-- C6 (amended): failed resolutions of a name with *no shadow-registry
entry* are cached and never retried.  (a) If `define` throws (or its
awaitable rejects), the record still advances to `resolved` with the
rejection stored in `exported`, and every later resolve returns the same
rejection with the container — including the define-call log — unchanged.
(b) If instead a dependency's outcome is a rejection, the record stays
`resolving` with the rejected in-flight handle stored, and every later
resolve returns that same rejection, again with no container change and no
`define` invocation.  (For a partial-mocked name the shadow resolution
clobbers the active record, so the original unrestricted claim fails — see
the counterexample.) -/
theorem c6_failure_caching :
    (∀ (g : Nat) (c : Container) (name : String) (m : Module)
        (outs : String → Except String Value) (vals : List Value) (e : String),
        alookup c.modules name = some m →
        m.state = .registered →
        (∀ d ∈ m.dependencies, ∃ md, alookup c.modules d = some md ∧
          md.state = .resolved ∧ md.exported = some (outs d)) →
        cyclesOf c = [] →
        allOk (m.dependencies.map outs) = .ok vals →
        m.define vals = .error e →
        alookup c.partial_modules name = none →
        let cA : Container :=
          { c with cycles := some [],
                   modules := aset c.modules name
                                { m with state := .resolved,
                                         exported := some (.error e),
                                         resolvingPromise := some (.error e) },
                   defineCalls := c.defineCalls ++
                     [{ name := name, fromShadow := false, args := vals }] }
        resolveFuel (g + 2) c name false = (.error e, cA)
        ∧ ∀ f : Nat, resolveFuel (f + 1) cA name false = (.error e, cA))
    ∧ (∀ (g : Nat) (c : Container) (name : String) (m : Module)
        (outs : String → Except String Value) (e : String),
        alookup c.modules name = some m →
        m.state = .registered →
        (∀ d ∈ m.dependencies, ∃ md, alookup c.modules d = some md ∧
          md.state = .resolved ∧ md.exported = some (outs d)) →
        cyclesOf c = [] →
        allOk (m.dependencies.map outs) = .error e →
        alookup c.partial_modules name = none →
        let cB : Container :=
          { c with cycles := some [],
                   modules := aset c.modules name
                                { m with state := .resolving,
                                         resolvingPromise := some (.error e) } }
        resolveFuel (g + 2) c name false = (.error e, cB)
        ∧ ∀ f : Nat, resolveFuel (f + 1) cB name false = (.error e, cB)) := by
  constructor
  · intro g c name m outs vals e hm hst hdeps hcyc hok hdfn hshadow
    constructor
    · have h := resolve_main_define g c name m outs vals hm hst hdeps hcyc hok
        hshadow
      rw [hdfn] at h
      exact h
    · intro f
      rw [resolveFuel_succ]
      have hl : alookup (aset c.modules name
          { m with state := .resolved,
                   exported := some (Except.error e),
                   resolvingPromise := some (Except.error e) }) name
          = some { m with state := .resolved,
                          exported := some (Except.error e),
                          resolvingPromise := some (Except.error e) } := by
        rw [alookup_aset]
        simp
      have hc := resolveStep_cached
        (fun cc nn ss => resolveFuel f cc nn ss)
        ({ c with cycles := some [],
                  modules := aset c.modules name
                               { m with state := .resolved,
                                        exported := some (.error e),
                                        resolvingPromise := some (.error e) },
                  defineCalls := c.defineCalls ++
                    [{ name := name, fromShadow := false, args := vals }] } :
          Container)
        name false _ (by simpa using hl) rfl
      rw [hc]
      rfl
  · intro g c name m outs e hm hst hdeps hcyc hfail hshadow
    constructor
    · exact resolve_main_depfail g c name m outs e hm hst hdeps hcyc hfail
        hshadow
    · intro f
      rw [resolveFuel_succ]
      have hl : alookup (aset c.modules name
          { m with state := .resolving,
                   resolvingPromise := some (Except.error e) }) name
          = some { m with state := .resolving,
                          resolvingPromise := some (Except.error e) } := by
        rw [alookup_aset]
        simp
      have hdep2 : firstMissingDep
          ({ c with cycles := some [],
                    modules := aset c.modules name
                                 { m with state := .resolving,
                                          resolvingPromise := some (.error e) } } :
            Container)
          ({ m with state := .resolving,
                    resolvingPromise := some (Except.error e) } :
            Module).dependencies = none := by
        refine firstMissingDep_none _ _ (fun d hd => ?_)
        rw [alookup_aset]
        by_cases hnd : name = d
        · simp [hnd]
        · simp only [if_neg hnd]
          obtain ⟨md, hmd, _, _⟩ := hdeps d hd
          simp [hmd]
      have := resolveStep_inflight
        (fun cc nn ss => resolveFuel f cc nn ss)
        ({ c with cycles := some [],
                  modules := aset c.modules name
                               { m with state := .resolving,
                                        resolvingPromise := some (.error e) } } :
          Container)
        name false _ (by simpa using hl) rfl hdep2 (by rfl)
      rw [this, cycles_eta _ _ rfl]
      rfl

theorem c6_witness :
    ((cFailing.resolve "child").1 = .error "boom"
      ∧ countDefine (cFailing.resolve "child").2 "child" = 1)
    ∧ (resolveFuel 2 cFailing "child" false).1 = .error "boom" := by
  refine ⟨⟨by decide, by decide⟩, ?_⟩
  have h := (c6_failure_caching.1 0 cFailing "child" _ (fun _ => .ok .vnull) []
    "boom" rfl rfl (by intro d hd; cases hd) rfl rfl rfl rfl).1
  rw [h]

/-- C6 counterexample to the unrestricted claim: `foo` is partial-mocked
(mock `get_x → 150` in the shadow registry) and the real `foo`'s define
rejects with "boom".  The first resolve returns that rejection, but —
because the shadow resolution, attached synchronously whether or not the
active chain will fail, clobbers the active registry record with the
resolved shadow record — the second resolve of the same name does *not*
return the same rejection: it cache-hits the shadow record and succeeds
with the mock's value. -/
theorem c6_counterexample :
    (cPMFail.resolve "foo").1 = .error "boom"
    ∧ ((cPMFail.resolve "foo").2.resolve "foo").1 =
        .ok (.vobj [("get_x", .pint 150)])
    ∧ ((cPMFail.resolve "foo").2.resolve "foo").1 ≠ .error "boom" := by
  refine ⟨by decide, by decide, by decide⟩

/-- How one resolution step may change the container: options untouched, an
empty cycle cache stays empty, shadow entries are never created, and both
registries only ever advance a record's lifecycle state (a resolved record
stays resolved); the data-model invariant is preserved. -/
structure Evolves (c c' : Container) : Prop where
  opts : c'.options = c.options
  cyc : c.cycles = some [] → c'.cycles = some []
  shadowNone : ∀ k, alookup c.partial_modules k = none →
    alookup c'.partial_modules k = none
  modulesMono : ∀ k m, alookup c.modules k = some m →
    ∃ m', alookup c'.modules k = some m' ∧ rank m.state ≤ rank m'.state ∧
      (m.state = .resolved → m'.state = .resolved)
  shadowMono : ∀ k m, alookup c.partial_modules k = some m →
    ∃ m', alookup c'.partial_modules k = some m' ∧ rank m.state ≤ rank m'.state
  inv : Inv c → Inv c'

/-- `Evolves` is reflexive. -/
theorem evolves_refl (c : Container) : Evolves c c :=
  ⟨rfl, fun h => h, fun _ h => h,
   fun _ m h => ⟨m, h, le_refl _, fun h' => h'⟩,
   fun _ m h => ⟨m, h, le_refl _⟩,
   fun h => h⟩

/-- `Evolves` composes. -/
theorem evolves_trans {a b c : Container} (h₁ : Evolves a b) (h₂ : Evolves b c) :
    Evolves a c := by
  refine ⟨h₂.opts.trans h₁.opts, fun h => h₂.cyc (h₁.cyc h),
    fun k h => h₂.shadowNone k (h₁.shadowNone k h), ?_, ?_,
    fun h => h₂.inv (h₁.inv h)⟩
  · intro k m hm
    obtain ⟨m₁, hm₁, hr₁, hres₁⟩ := h₁.modulesMono k m hm
    obtain ⟨m₂, hm₂, hr₂, hres₂⟩ := h₂.modulesMono k m₁ hm₁
    exact ⟨m₂, hm₂, le_trans hr₁ hr₂, fun h => hres₂ (hres₁ h)⟩
  · intro k m hm
    obtain ⟨m₁, hm₁, hr₁⟩ := h₁.shadowMono k m hm
    obtain ⟨m₂, hm₂, hr₂⟩ := h₂.shadowMono k m₁ hm₁
    exact ⟨m₂, hm₂, le_trans hr₁ hr₂⟩

/-- A fold of evolving steps evolves. -/
theorem resolveDepsWith_evolves
    (f : Container → String → Except String Value × Container)
    (hf : ∀ cc d, Evolves cc (f cc d).2) :
    ∀ (ds : List String) (cc : Container),
      Evolves cc (resolveDepsWith f cc ds).2 := by
  intro ds
  induction ds with
  | nil => intro cc; exact evolves_refl cc
  | cons d ds ih =>
      intro cc
      exact evolves_trans (hf cc d) (ih (f cc d).2)

/-- `resolved` is the top of the lifecycle order. -/
theorem rank_le_two (st : ModuleState) : rank st ≤ 2 := by
  cases st <;> simp [rank]

/-- A `registered` record is not `resolved`. -/
theorem not_resolved_of_registered {m : Module} (h : m.state = .registered) :
    ¬ m.state = .resolved := by
  rw [h]; intro hh; cases hh

/-- Under the invariant, an unresolved record has no exported value. -/
theorem inv_exported_none {c : Container} {k : String} {m : Module}
    (hInv : Inv c)
    (hm : (k, m) ∈ c.modules ∨ (k, m) ∈ c.partial_modules)
    (hns : ¬ m.state = .resolved) : m.exported = none := by
  have hiff : exportedIffResolved m := by
    rcases hm with h | h
    · exact hInv.1 (k, m) h
    · exact hInv.2 (k, m) h
  rw [exportedIffResolved] at hiff
  rcases hh : m.exported with _ | v
  · rfl
  · exact absurd (hiff.mp (by rw [hh]; rfl)) hns

/-- Appending to the ghost define-call log is an `Evolves` step. -/
theorem evolves_defineCalls {c base : Container} (E : Evolves c base)
    (l : List DefineCall) :
    Evolves c { base with defineCalls := l } := by
  refine ⟨E.opts, E.cyc, E.shadowNone, ?_, E.shadowMono, ?_⟩
  · intro k m hm
    exact E.modulesMono k m hm
  · intro hInv
    have h3 := E.inv hInv
    exact ⟨h3.1, h3.2⟩

/-- Storing a record over a known entry of the main registry evolves the
container when the store does not lower that entry's state. -/
theorem evolves_store_modules {c base : Container} (k : String)
    {m : Module} (mNew : Module)
    (E : Evolves c base)
    (hm : alookup c.modules k = some m)
    (hrank : rank m.state ≤ rank mNew.state)
    (hres : m.state = .resolved → mNew.state = .resolved)
    (hinvNew : Inv c → exportedIffResolved mNew) :
    Evolves c { base with modules := aset base.modules k mNew } := by
  refine ⟨E.opts, E.cyc, E.shadowNone, ?_, E.shadowMono, ?_⟩
  · intro k' m'' hm''
    by_cases hk : k = k'
    · subst hk
      rw [hm] at hm''
      cases hm''
      exact ⟨mNew, by rw [alookup_aset, if_pos rfl], hrank, hres⟩
    · obtain ⟨m₁, hm₁, hr₁, hres₁⟩ := E.modulesMono k' m'' hm''
      exact ⟨m₁, by rw [alookup_aset, if_neg hk]; exact hm₁, hr₁, hres₁⟩
  · intro hInv
    have h3 := E.inv hInv
    refine ⟨?_, h3.2⟩
    intro p hp
    rcases mem_aset _ _ _ _ hp with h | h
    · rw [h]; exact hinvNew hInv
    · exact h3.1 p h

/-- Storing a record over a known entry of the shadow registry evolves the
container when the store does not lower that entry's state. -/
theorem evolves_store_shadow {c base : Container} (k : String)
    {m : Module} (mNew : Module)
    (E : Evolves c base)
    (hm : alookup c.partial_modules k = some m)
    (hrank : rank m.state ≤ rank mNew.state)
    (hinvNew : Inv c → exportedIffResolved mNew) :
    Evolves c { base with partial_modules := aset base.partial_modules k mNew } := by
  refine ⟨E.opts, E.cyc, ?_, ?_, ?_, ?_⟩
  · intro k' hk'
    have hkk : ¬ k = k' := by
      intro h
      rw [h, hk'] at hm
      cases hm
    rw [alookup_aset, if_neg hkk]
    exact E.shadowNone k' hk'
  · intro k' m'' hm''
    exact E.modulesMono k' m'' hm''
  · intro k' m'' hm''
    by_cases hk : k = k'
    · subst hk
      rw [hm] at hm''
      cases hm''
      exact ⟨mNew, by rw [alookup_aset, if_pos rfl], hrank⟩
    · obtain ⟨m₁, hm₁, hr₁⟩ := E.shadowMono k' m'' hm''
      exact ⟨m₁, by rw [alookup_aset, if_neg hk]; exact hm₁, hr₁⟩
  · intro hInv
    have h3 := E.inv hInv
    refine ⟨h3.1, ?_⟩
    intro p hp
    rcases mem_aset _ _ _ _ hp with h | h
    · rw [h]; exact hinvNew hInv
    · exact h3.2 p h

/-- The shadow success continuation's double store (shadow slot and
`this._modules[name] = module`) evolves the container: the stored record is
`resolved`, the top of the lifecycle order. -/
theorem evolves_store_both {c base : Container} (k : String)
    {m : Module} (mNew : Module)
    (E : Evolves c base)
    (hm : alookup c.partial_modules k = some m)
    (hrank : rank m.state ≤ rank mNew.state)
    (hresNew : mNew.state = .resolved)
    (hinvNew : Inv c → exportedIffResolved mNew) :
    Evolves c { base with partial_modules := aset base.partial_modules k mNew,
                          modules := aset base.modules k mNew } := by
  refine ⟨E.opts, E.cyc, ?_, ?_, ?_, ?_⟩
  · intro k' hk'
    have hkk : ¬ k = k' := by
      intro h
      rw [h, hk'] at hm
      cases hm
    rw [alookup_aset, if_neg hkk]
    exact E.shadowNone k' hk'
  · intro k' m'' hm''
    by_cases hk : k = k'
    · subst hk
      refine ⟨mNew, by rw [alookup_aset, if_pos rfl], ?_, fun _ => hresNew⟩
      calc rank m''.state ≤ 2 := rank_le_two _
        _ = rank mNew.state := by rw [hresNew]; rfl
    · obtain ⟨m₁, hm₁, hr₁, hres₁⟩ := E.modulesMono k' m'' hm''
      exact ⟨m₁, by rw [alookup_aset, if_neg hk]; exact hm₁, hr₁, hres₁⟩
  · intro k' m'' hm''
    by_cases hk : k = k'
    · subst hk
      rw [hm] at hm''
      cases hm''
      exact ⟨mNew, by rw [alookup_aset, if_pos rfl], hrank⟩
    · obtain ⟨m₁, hm₁, hr₁⟩ := E.shadowMono k' m'' hm''
      exact ⟨m₁, by rw [alookup_aset, if_neg hk]; exact hm₁, hr₁⟩
  · intro hInv
    have h3 := E.inv hInv
    constructor
    · intro p hp
      rcases mem_aset _ _ _ _ hp with h | h
      · rw [h]; exact hinvNew hInv
      · exact h3.1 p h
    · intro p hp
      rcases mem_aset _ _ _ _ hp with h | h
      · rw [h]; exact hinvNew hInv
      · exact h3.2 p h

/-- Filling the cycle cache is an `Evolves` step. -/
theorem evolves_setCycles (c : Container) :
    Evolves c { c with cycles := some (cyclesOf c) } :=
  ⟨rfl, fun h => by rw [cyclesOf_cached c [] h], fun _ h => h,
   fun _ mm h => ⟨mm, h, le_refl _, fun x => x⟩,
   fun _ mm h => ⟨mm, h, le_refl _⟩, fun h => h⟩

/-- Caching the empty cycle list is an `Evolves` step. -/
theorem evolves_emptyCycles (c : Container) :
    Evolves c { c with cycles := some [] } :=
  ⟨rfl, fun _ => rfl, fun _ h => h,
   fun _ mm h => ⟨mm, h, le_refl _, fun x => x⟩,
   fun _ mm h => ⟨mm, h, le_refl _⟩, fun h => h⟩

/-- The main branch of one resolution step only advances states, never
creates shadow entries, and preserves the invariant. -/
theorem main_branch_evolves (fuel : Nat) (c : Container) (k : String) (s : Bool)
    (m : Module)
    (ih : ∀ (cc : Container) (kk : String) (ss : Bool),
      Evolves cc ((resolveFuel fuel cc kk ss).2))
    (hm : (if s then alookup c.partial_modules k
           else alookup c.modules k) = some m)
    (hreg : m.state = .registered)
    (hdep : firstMissingDep c m.dependencies = none)
    (hcyc : cyclesOf c = []) :
    Evolves c
      ((resolveStep (fun cc nn ss => resolveFuel fuel cc nn ss) c k s).2) := by
  have hnres : ¬ m.state = .resolved := not_resolved_of_registered hreg
  have hrank1 : rank m.state ≤ rank ModuleState.resolving := by
    rw [hreg]; decide
  have hrank2 : rank m.state ≤ rank ModuleState.resolved := by
    rw [hreg]; decide
  cases s with
  | false =>
    simp only [Bool.false_eq_true, if_false] at hm
    have hmemc : (k, m) ∈ c.modules := alookup_mem _ _ _ hm
    have hexp : m.exported = none → True := fun _ => trivial
    unfold resolveStep
    simp only [Bool.false_eq_true, if_false, hm, hreg]
    simp only [hdep, hcyc, storeModule]
    simp only [reduceCtorEq, if_false, if_true]
    simp only [storeResolved]
    have E2 : Evolves c
        { c with cycles := some [],
                 modules := aset c.modules k { m with state := .resolving } } :=
      evolves_store_modules k { m with state := .resolving }
        (evolves_emptyCycles c) hm hrank1 (fun h => absurd h hnres)
        (fun hInv => by
          have := inv_exported_none hInv (Or.inl hmemc) hnres
          simp [exportedIffResolved, this])
    have E3 : Evolves c
        ((resolveDepsWith (fun cc d => resolveFuel fuel cc d false)
          { c with cycles := some [],
                   modules := aset c.modules k { m with state := .resolving } }
          m.dependencies).2) :=
      evolves_trans E2
        (resolveDepsWith_evolves _ (fun cc d => ih cc d false) m.dependencies _)
    rcases hall : allOk (resolveDepsWith (fun cc d => resolveFuel fuel cc d false)
        { c with cycles := some [],
                 modules := aset c.modules k { m with state := .resolving } }
        m.dependencies).1 with e | vals
    · -- Promise.all rejected: the resolving record stores the rejection,
      -- and the synchronously-attached partial-mock branch may still run
      simp only [Bool.false_eq_true, if_false]
      have E4 := evolves_store_modules k
        ({ m with state := .resolving, resolvingPromise := some (.error e) })
        E3 hm hrank1 (fun h => absurd h hnres)
        (fun hInv => by
          have := inv_exported_none hInv (Or.inl hmemc) hnres
          simp [exportedIffResolved, this])
      split
      · split
        · exact evolves_trans E4 (ih _ k true)
        · exact evolves_trans E4 (ih _ k true)
      · exact E4
    · -- success: the record advances to resolved
      simp only [Bool.false_eq_true, if_false]
      have E5 := evolves_store_modules k
        ({ m with state := .resolved,
                  exported := some (m.define vals),
                  resolvingPromise := some (m.define vals) })
        (evolves_defineCalls E3
          ((resolveDepsWith (fun cc d => resolveFuel fuel cc d false)
            { c with cycles := some [],
                     modules := aset c.modules k
                                  { m with state := .resolving } }
            m.dependencies).2.defineCalls ++
              [{ name := k, fromShadow := false, args := vals }]))
        hm hrank2 (fun _ => rfl)
        (fun _ => by simp [exportedIffResolved])
      split
      · split
        · exact evolves_trans E5 (ih _ k true)
        · split
          · exact evolves_trans E5 (ih _ k true)
          · exact evolves_trans E5 (ih _ k true)
      · exact E5
  | true =>
    simp only [if_true] at hm
    have hmemc : (k, m) ∈ c.partial_modules := alookup_mem _ _ _ hm
    unfold resolveStep
    simp only [if_true, hm, hreg]
    simp only [hdep, hcyc, storeModule]
    simp only [reduceCtorEq, if_false, if_true]
    simp only [storeResolved]
    have E2 : Evolves c
        { c with cycles := some [],
                 partial_modules :=
                   aset c.partial_modules k { m with state := .resolving } } :=
      evolves_store_shadow k { m with state := .resolving }
        (evolves_emptyCycles c) hm hrank1
        (fun hInv => by
          have := inv_exported_none hInv (Or.inr hmemc) hnres
          simp [exportedIffResolved, this])
    have E3 : Evolves c
        ((resolveDepsWith (fun cc d => resolveFuel fuel cc d false)
          { c with cycles := some [],
                   partial_modules :=
                     aset c.partial_modules k { m with state := .resolving } }
          m.dependencies).2) :=
      evolves_trans E2
        (resolveDepsWith_evolves _ (fun cc d => ih cc d false) m.dependencies _)
    split
    · exact evolves_store_shadow k _ E3 hm hrank1
        (fun hInv => by
          have := inv_exported_none hInv (Or.inr hmemc) hnres
          simp [exportedIffResolved, this])
    · rename_i vals heq
      exact evolves_store_both k
        { m with state := .resolved,
                 exported := some (m.define vals),
                 resolvingPromise := some (m.define vals) }
        (evolves_defineCalls E3
          ((resolveDepsWith (fun cc d => resolveFuel fuel cc d false)
            { c with cycles := some [],
                     partial_modules := aset c.partial_modules k
                                          { m with state := .resolving } }
            m.dependencies).2.defineCalls ++
              [{ name := k, fromShadow := true, args := vals }]))
        hm hrank2 rfl
        (fun _ => by simp [exportedIffResolved])

/-- The resolution engine only evolves the container: options untouched,
states advance monotonically in both registries, shadow entries are never
created, the invariant is preserved. -/
theorem resolve_evolves :
    ∀ (fuel : Nat) (c : Container) (k : String) (s : Bool),
      Evolves c ((resolveFuel fuel c k s).2) := by
  intro fuel
  induction fuel with
  | zero => intro c k s; exact evolves_refl c
  | succ fuel ih =>
    intro c k s
    rw [resolveFuel_succ]
    rcases hm : (if s then alookup c.partial_modules k
                 else alookup c.modules k) with _ | m
    · rw [resolveStep_missing _ _ _ _ hm]
      exact evolves_refl c
    · by_cases hres : m.state = .resolved
      · rw [resolveStep_cached _ _ _ _ _ hm hres]
        exact evolves_refl c
      · rcases hdep : firstMissingDep c m.dependencies with _ | d
        · by_cases hcyc : cyclesOf c = []
          · by_cases hstres : m.state = .resolving
            · rw [resolveStep_inflight _ _ _ _ _ hm hstres hdep hcyc]
              rw [← hcyc]
              exact evolves_setCycles c
            · have hreg : m.state = .registered := by
                cases hst : m.state
                · rfl
                · exact absurd hst hstres
                · exact absurd hst hres
              exact main_branch_evolves fuel c k s m ih hm hreg hdep hcyc
          · rw [resolveStep_circular _ _ _ _ _ hm hres hdep hcyc]
            exact evolves_setCycles c
        · rw [resolveStep_depMissing _ _ _ _ _ _ hm hres hdep]
          exact evolves_refl c

/-- A fresh container satisfies the data-model invariant. -/
theorem inv_mk (opts : Options) : Inv (mkContainer opts) := by
  constructor <;> intro p hp <;> cases hp

/-- `register` preserves the invariant: a fresh record starts `registered`
with no exported value, and the record moved to the shadow registry is an
existing record. -/
theorem register_inv {c : Container} {name : String} {d : DepsDecl}
    {c' : Container} (hInv : Inv c)
    (h : Container.register c name d = .ok c') : Inv c' := by
  unfold Container.register at h
  dsimp only at h
  split at h
  · cases h
  · split at h
    · cases h
    · split at h
      · cases h
      · rename_i fn hfn
        split at h
        · rename_i existing hex
          split at h
          · cases h
            exact ⟨hInv.1, hInv.2⟩
          · split at h
            · cases h
              constructor
              · intro p hp
                rcases mem_aset _ _ _ _ hp with hh | hh
                · rw [hh]; simp [exportedIffResolved]
                · exact hInv.1 p hh
              · intro p hp
                rcases mem_aset _ _ _ _ hp with hh | hh
                · rw [hh]
                  exact hInv.1 (name, existing) (alookup_mem _ _ _ hex)
                · exact hInv.2 p hh
            · cases h
        · cases h
          constructor
          · intro p hp
            rcases mem_aset _ _ _ _ hp with hh | hh
            · rw [hh]; simp [exportedIffResolved]
            · exact hInv.1 p hh
          · exact hInv.2

/-- A successful `register` either leaves the main registry untouched
(full-mock path) or installs one fresh `registered` record at the name. -/
theorem register_ok_modules {c : Container} {name : String} {d : DepsDecl}
    {c' : Container} (h : Container.register c name d = .ok c') :
    c'.modules = c.modules ∨ ∃ nm : Module, nm.state = .registered ∧
      nm.exported = none ∧ c'.modules = aset c.modules name nm := by
  unfold Container.register at h
  dsimp only at h
  split at h
  · cases h
  · split at h
    · cases h
    · split at h
      · cases h
      · rename_i fn hfn
        split at h
        · split at h
          · cases h
            exact Or.inl rfl
          · split at h
            · cases h
              exact Or.inr ⟨_, rfl, rfl, rfl⟩
            · cases h
        · cases h
          exact Or.inr ⟨_, rfl, rfl, rfl⟩

/-- `registerAndExport` preserves the invariant: it sets `exported`
together with the `resolved` state. -/
theorem registerAndExport_inv {c : Container} {name : String} {v : Value}
    {c' : Container} (hInv : Inv c)
    (h : Container.registerAndExport c name v = .ok c') : Inv c' := by
  unfold Container.registerAndExport at h
  split at h
  · cases h
  · rename_i c'' hreg
    have hInv'' := register_inv hInv hreg
    split at h
    · cases h
      exact hInv''
    · rename_i m hm
      cases h
      constructor
      · intro p hp
        rcases mem_aset _ _ _ _ hp with hh | hh
        · rw [hh]; simp [exportedIffResolved]
        · exact hInv''.1 p hh
      · exact hInv''.2

/-- `registerAndExport` never lowers the state at any name: the record it
installs or mutates ends `resolved`, the top of the order. -/
theorem registerAndExport_mono {c : Container} {name : String} {v : Value}
    {c' : Container}
    (h : Container.registerAndExport c name v = .ok c') :
    ∀ (n : String) (m : Module), alookup c.modules n = some m →
      ∃ m', alookup c'.modules n = some m' ∧ rank m.state ≤ rank m'.state := by
  intro n m hm
  unfold Container.registerAndExport at h
  split at h
  · cases h
  · rename_i c'' hreg
    rcases register_ok_modules hreg with hsame | ⟨nm, _, _, hset⟩
    · split at h
      · cases h
        exact ⟨m, by rw [hsame]; exact hm, le_refl _⟩
      · rename_i m0 hm0
        cases h
        by_cases hk : name = n
        · subst hk
          rw [hsame, hm] at hm0
          cases hm0
          refine ⟨_, by rw [alookup_aset, if_pos rfl], ?_⟩
          exact rank_le_two _
        · exact ⟨m, by rw [alookup_aset, if_neg hk, hsame]; exact hm, le_refl _⟩
    · split at h
      · rename_i hnone
        rw [hset, alookup_aset, if_pos rfl] at hnone
        cases hnone
      · rename_i m0 hm0
        cases h
        by_cases hk : name = n
        · subst hk
          refine ⟨_, by rw [hset, aset_aset, alookup_aset, if_pos rfl], ?_⟩
          exact rank_le_two _
        · refine ⟨m, ?_, le_refl _⟩
          rw [hset, aset_aset, alookup_aset, if_neg hk]
          exact hm

/-- Every registry operation preserves the data-model invariant. -/
theorem step_inv {c : Container} (hInv : Inv c) (op : Op) :
    Inv (step c op) := by
  cases op with
  | register n d =>
      dsimp only [step]
      split
      · rename_i c' h
        exact register_inv hInv h
      · exact hInv
  | registerAndExport n v =>
      dsimp only [step]
      split
      · rename_i c' h
        exact registerAndExport_inv hInv h
      · exact hInv
  | resolve fuel n =>
      dsimp only [step]
      exact (resolve_evolves fuel c n false).inv hInv

/-- The invariant holds along any operation sequence. -/
theorem runOps_inv : ∀ (ops : List Op) (c : Container), Inv c →
    Inv (runOps c ops) := by
  intro ops
  induction ops with
  | nil => intro c h; exact h
  | cons op ops ih =>
      intro c h
      exact ih (step c op) (step_inv h op)

/-- C10: (1) after every operation sequence from a fresh container,
every module record of either registry has `exported` populated iff its
state is `resolved`; (2,3) `resolve` never lowers any name's state in
either registry; (4) a successful `register` either leaves a name's active
record untouched or installs a fresh record in state `registered` with no
exported value (re-registration creates a new record rather than mutating
state); (5) a successful `registerAndExport` never lowers any name's
state. -/
theorem c10_lifecycle :
    (∀ (opts : Options) (ops : List Op), Inv (runOps (mkContainer opts) ops))
    ∧ (∀ (fuel : Nat) (c : Container) (k : String) (s : Bool) (n : String)
        (m : Module),
        alookup c.modules n = some m →
        ∃ m', alookup ((resolveFuel fuel c k s).2).modules n = some m' ∧
          rank m.state ≤ rank m'.state)
    ∧ (∀ (fuel : Nat) (c : Container) (k : String) (s : Bool) (n : String)
        (m : Module),
        alookup c.partial_modules n = some m →
        ∃ m', alookup ((resolveFuel fuel c k s).2).partial_modules n = some m' ∧
          rank m.state ≤ rank m'.state)
    ∧ (∀ (c : Container) (name : String) (d : DepsDecl) (c' : Container)
        (n : String),
        Container.register c name d = .ok c' →
        alookup c'.modules n = alookup c.modules n ∨
        ∃ m', alookup c'.modules n = some m' ∧ m'.state = .registered ∧
          m'.exported = none)
    ∧ (∀ (c : Container) (name : String) (v : Value) (c' : Container)
        (n : String) (m : Module),
        Container.registerAndExport c name v = .ok c' →
        alookup c.modules n = some m →
        ∃ m', alookup c'.modules n = some m' ∧ rank m.state ≤ rank m'.state) := by
  refine ⟨?_, ?_, ?_, ?_, ?_⟩
  · intro opts ops
    exact runOps_inv ops (mkContainer opts) (inv_mk opts)
  · intro fuel c k s n m hm
    obtain ⟨m', hm', hr, _⟩ := (resolve_evolves fuel c k s).modulesMono n m hm
    exact ⟨m', hm', hr⟩
  · intro fuel c k s n m hm
    exact (resolve_evolves fuel c k s).shadowMono n m hm
  · intro c name d c' n h
    rcases register_ok_modules h with hsame | ⟨nm, hst, hexp, hset⟩
    · exact Or.inl (by rw [hsame])
    · by_cases hk : name = n
      · subst hk
        exact Or.inr ⟨nm, by rw [hset, alookup_aset, if_pos rfl], hst, hexp⟩
      · exact Or.inl (by rw [hset, alookup_aset, if_neg hk])
  · intro c name v c' n m h hm
    exact registerAndExport_mono h n m hm

theorem c10_witness :
    (∃ m', alookup ((resolveFuel 3 cDiamond "a" false).2).modules "d" = some m' ∧
      rank ModuleState.registered ≤ rank m'.state)
    ∧ Inv (runOps (mkContainer {})
        [Op.register "a" (.func [] (fun _ => .ok (.vstr "a"))),
         Op.resolve 2 "a"]) :=
  ⟨c10_lifecycle.2.1 3 cDiamond "a" false "d" _ rfl,
   c10_lifecycle.1 {}
     [Op.register "a" (.func [] (fun _ => .ok (.vstr "a"))), Op.resolve 2 "a"]⟩

end Zeninjector
